import Mathlib

/-!
Verification of the session construction and train/test partitioning logic of
deeploglizer/common/dataloader.py (deep-loglizer).

The Python loaders are embedded shallowly: pandas rows become Lean structures,
numpy index arrays become lists of naturals, Python float ratios become exact
rationals, Python list slicing (including the `a[-0:]` corner) is modelled
explicitly, and runtime faults (AssertionError, ZeroDivisionError) become
`Option.none` results.
-/

namespace DeepLoglizer

/- `Rat.mul` and friends are `@[irreducible]` for the elaborator, which keeps
`decide` from evaluating concrete rational arithmetic; the kernel reduces them
regardless, so resetting the elaborator hint is sound and local. -/
attribute [local semireducible] Rat.mul Rat.add Rat.inv Rat.sub

/-- Python slice `a[0:k]`. -/
def pyHead (l : List α) (k : ℕ) : List α := l.take k

/-- Python slice `a[-k:]`.  For `k = 0` this is `a[0:]`, i.e. the whole list;
for `k ≥ 1` it is the last `min k (len a)` elements. -/
def pyTail (l : List α) (k : ℕ) : List α :=
  if k = 0 then l else l.drop (l.length - k)

/-- Python `int(q)` for a nonnegative rational `q` (truncation toward zero,
which on nonnegative arguments is the floor), landing in ℕ. -/
def floorNat (q : ℚ) : ℕ := q.floor.toNat

/-- Modelled from the spec: `deeploglizer.common.utils.decision` is imported by
the dataloader but `utils.py` is not part of the sources under review.  The
spec describes it as an independent biased-coin draw that succeeds with
probability `p`; we model the draw by a uniform sample `u ∈ [0,1)` compared
against `p`. -/
def decision (p u : ℚ) : Bool := decide (u < p)

/-! ## BGL loader (`load_BGL`): row-index partitioning over a flat log -/

/-- One row of the BGL structured log (the columns `load_BGL` reads). -/
structure BGLRow where
  eventTemplate : String
  labelRaw : String
  deriving DecidableEq

instance : Inhabited BGLRow := ⟨⟨"", "-"⟩⟩

/-- `struct_log["Label"].map(lambda x: x != "-").astype(int)`. -/
def bglLabel (r : BGLRow) : ℕ := if r.labelRaw = "-" then 0 else 1

/-- `labels[idx]` for a row index. -/
def bglLabelAt (rows : List BGLRow) (i : ℕ) : ℕ := bglLabel (rows.getD i default)

/-- `templates[idx]` for a row index. -/
def bglTemplateAt (rows : List BGLRow) (i : ℕ) : String :=
  (rows.getD i default).eventTemplate

/-- Configuration of `load_BGL` (after the `train_ratio = 1 - test_ratio`
defaulting has been applied by the caller when `train_ratio` was `None`). -/
structure BGLConfig where
  trainRatio : ℚ
  testRatio : ℚ
  anomalyRatio : ℚ
  filterNormal : Bool
  deriving DecidableEq

/-- The head/tail index split shared by all ratio partitioning loaders:
`total_indice[0:train_lines]` and `total_indice[-test_lines:]` where
`train_lines = int(train_ratio * N)` and `test_lines = int(test_ratio * N)`,
over the (possibly shuffled) order `order`. -/
def partitionIdx (order : List ℕ) (trainRatio testRatio : ℚ) : List ℕ × List ℕ :=
  (pyHead order (floorNat (trainRatio * order.length)),
   pyTail order (floorNat (testRatio * order.length)))

/-- The anomaly-downsampling filter applied to the training index window:
`labels[idx] == 0 or (labels[idx] == 1 and decision(train_anomaly_ratio))`. -/
def bglTrainKeep (rows : List BGLRow) (p : ℚ) (coins : ℕ → ℚ) (i : ℕ) : Bool :=
  decide (bglLabelAt rows i = 0) ||
    (decide (bglLabelAt rows i = 1) && decision p (coins i))

/-- The unseen-template test filter:
`not (labels[idx] == 0 and templates[idx] not in seen_normal)`. -/
def bglTestKeep (rows : List BGLRow) (seen : List String) (i : ℕ) : Bool :=
  !(decide (bglLabelAt rows i = 0) && !(decide (bglTemplateAt rows i ∈ seen)))

/-- `load_BGL`, embedded.  `order` is `total_indice` after the optional
shuffle (`List.range rows.length` when `random_partition` is false); `coins`
supplies the uniform draw consumed by `decision` for each row index.  The
result is the pair of selected train/test row-index lists; `none` models a
runtime fault: the `assert train_ratio + test_ratio <= 1` failing, or the
`ZeroDivisionError` raised by the anomaly-percentage statistics
`100 * sum(labels)/len(labels)` when a produced partition is empty. -/
def load_BGL (rows : List BGLRow) (cfg : BGLConfig) (order : List ℕ)
    (coins : ℕ → ℚ) : Option (List ℕ × List ℕ) :=
  if cfg.trainRatio + cfg.testRatio ≤ 1 then
    let split := partitionIdx order cfg.trainRatio cfg.testRatio
    let idxTrain := split.1.filter (bglTrainKeep rows cfg.anomalyRatio coins)
    let seen := idxTrain.map (bglTemplateAt rows)
    let idxTest :=
      if cfg.filterNormal then split.2.filter (bglTestKeep rows seen)
      else split.2
    if idxTrain.length = 0 ∨ idxTest.length = 0 then none
    else some (idxTrain, idxTest)
  else none

/-! ## Session builder shared by `load_HDFS` and `load_OpenStack`

`session_dict` is an `OrderedDict`; appending a template to key `k` either
updates `k`'s entry in place or, on first sight of `k`, adds it at the end. -/

/-- `session_dict[k]["templates"].append(t)` (creating the entry on first
use), on an association list kept in first-seen key order. -/
def appendTo [DecidableEq K] : List (K × List String) → K → String → List (K × List String)
  | [], k, t => [(k, [t])]
  | (k', ts) :: rest, k, t =>
    if k' = k then (k', ts ++ [t]) :: rest else (k', ts) :: appendTo rest k t

/-- `session_dict[k]["templates"]` (empty when `k` is absent). -/
def sessionTemplates [DecidableEq K] : List (K × List String) → K → List String
  | [], _ => []
  | (k', ts) :: rest, k => if k' = k then ts else sessionTemplates rest k

/-! ## HDFS loader (`load_HDFS`): multi-id session partitioning -/

/-- One row of the HDFS structured log.  `contentIds` is the match list
`re.findall(r"(blk_-?\d+)", row["Content"])`, in match order, duplicates
included. -/
structure HDFSRow where
  contentIds : List String
  eventTemplate : String
  deriving DecidableEq

/-- `label_data["Label"].map(lambda x: int(x == "Anomaly"))`. -/
def hdfsLabel (s : String) : ℕ := if s = "Anomaly" then 1 else 0

/-- The HDFS session-building loop: for each row, `blkId_set = set(blkId_list)`
and the row's template is appended to the session of every id in the set.
Python's set iteration order is unspecified; we iterate the duplicate-free
sublist `List.dedup` produces, which fixes one key creation order but does
not affect any per-session template list. -/
def buildHDFS (rows : List HDFSRow) : List (String × List String) :=
  rows.foldl
    (fun acc row =>
      row.contentIds.dedup.foldl (fun a k => appendTo a k row.eventTemplate) acc)
    []

/-- `load_HDFS`, embedded.  `labelTable` is `label_data_dict` as an
association list; `order` is `session_idx` after the optional shuffle
(`List.range` of the session count when `random_partition` is false); `coins`
supplies the uniform draw consumed by `decision` for each session id.  `none`
models a runtime fault: the `KeyError` when a built session id is missing from
the label table, or the `ZeroDivisionError` of the anomaly statistics on an
empty partition.  Note: unlike `load_BGL`, there is no assertion on
`train_ratio + test_ratio`. -/
def load_HDFS (rows : List HDFSRow) (labelTable : List (String × ℕ))
    (trainRatio testRatio anomalyRatio : ℚ) (order : List ℕ)
    (coins : String → ℚ) : Option (List String × List String) :=
  let sessions := buildHDFS rows
  let ids := sessions.map Prod.fst
  if ids.all (fun k => (labelTable.lookup k).isSome) then
    let labelOf := fun k => (labelTable.lookup k).getD 0
    let split := partitionIdx order trainRatio testRatio
    let idTrain := split.1.map (fun i => ids.getD i "")
    let idTest := split.2.map (fun i => ids.getD i "")
    let sessionTrain := idTrain.filter (fun k =>
      decide (labelOf k = 0) ||
        (decide (labelOf k = 1) && decision anomalyRatio (coins k)))
    if sessionTrain.length = 0 ∨ idTest.length = 0 then none
    else some (sessionTrain, idTest)
  else none

/-! ## OpenStack loader (`load_OpenStack`): time-bucket sessions -/

/-- One row of the OpenStack structured log after the `Date + ' ' + Time`
regex and `strptime` have succeeded: `minutePart` is the `YYYY-MM-DD HH:MM`
part of the parsed datetime and `second` its seconds field (`< 60`). -/
structure OSRow where
  minutePart : String
  second : ℕ
  eventTemplate : String
  deriving DecidableEq

/-- The session key: the parsed datetime with `second` replaced by `0` when
`second <= 30` and by `30` otherwise. -/
def bucketKey (r : OSRow) : String × ℕ :=
  if r.second ≤ 30 then (r.minutePart, 0) else (r.minutePart, 30)

/-- The template stored by `load_OpenStack`:
`row["EventTemplate"].replace('[', '')`, i.e. every `'['` removed. -/
def openStackStoredTemplate (s : String) : String :=
  ⟨s.data.filter (fun c => c ≠ '[')⟩

/-- The OpenStack session-building loop: each row's transformed template is
appended to the session of its bucket key, in arrival order. -/
def buildOpenStack (rows : List OSRow) : List ((String × ℕ) × List String) :=
  rows.foldl
    (fun acc r => appendTo acc (bucketKey r) (openStackStoredTemplate r.eventTemplate))
    []

/-! ## `load_sessions`: pre-segmented session collections from disk -/

/-- A raw session label as found in the pickled collections: either a scalar
or a list of window-level sub-labels. -/
inductive RawLabel where
  | scalar : ℤ → RawLabel
  | collection : List ℤ → RawLabel
  deriving DecidableEq

/-- One pickled session. -/
structure PackedSession where
  templates : List String
  label : RawLabel
  deriving DecidableEq

/-- The label resolution expression of `load_sessions`:
`v["label"] if not isinstance(v["label"], list) else int(sum(v["label"]) > 0)`. -/
def resolveLabel : RawLabel → ℤ
  | .scalar n => n
  | .collection l => if 0 < l.sum then 1 else 0

/-- `load_sessions`, embedded.  It computes resolved label lists only for the
logged statistics and returns the two loaded collections unchanged; `none`
models the `ZeroDivisionError` of `sum(labels)/len(collection)` on an empty
collection. -/
def load_sessions (sessionTrain sessionTest : List (String × PackedSession)) :
    Option ((List (String × PackedSession)) × (List (String × PackedSession))) :=
  let trainLabels := sessionTrain.map (fun v => resolveLabel v.2.label)
  let testLabels := sessionTest.map (fun v => resolveLabel v.2.label)
  if sessionTrain.length = 0 ∨ sessionTest.length = 0 then none
  else
    let _ := trainLabels.sum
    let _ := testLabels.sum
    some (sessionTrain, sessionTest)

/-! ## Arithmetic facts about the slice bounds -/

lemma floorNat_eq_intFloor (q : ℚ) : floorNat q = (Int.floor q).toNat := by
  unfold floorNat
  rw [Rat.floor_def', ← Rat.floor_def]

lemma floorNat_le {r : ℚ} (N : ℕ) (h1 : r ≤ 1) : floorNat (r * N) ≤ N := by
  rw [floorNat_eq_intFloor]
  rw [Int.toNat_le]
  calc ⌊r * (N : ℚ)⌋ ≤ ⌊(N : ℚ)⌋ :=
        Int.floor_le_floor (mul_le_of_le_one_left (Nat.cast_nonneg N) h1)
    _ = (N : ℤ) := Int.floor_natCast N

lemma floorNat_add_le {a b : ℚ} (N : ℕ) (ha : 0 ≤ a) (hb : 0 ≤ b)
    (hab : a + b ≤ 1) : floorNat (a * N) + floorNat (b * N) ≤ N := by
  have hfa : (0 : ℤ) ≤ ⌊a * (N : ℚ)⌋ :=
    Int.floor_nonneg.mpr (mul_nonneg ha (Nat.cast_nonneg N))
  have hfb : (0 : ℤ) ≤ ⌊b * (N : ℚ)⌋ :=
    Int.floor_nonneg.mpr (mul_nonneg hb (Nat.cast_nonneg N))
  have hsum : ⌊a * (N : ℚ)⌋ + ⌊b * (N : ℚ)⌋ ≤ (N : ℤ) := by
    have h1 : ((⌊a * (N : ℚ)⌋ + ⌊b * (N : ℚ)⌋ : ℤ) : ℚ) ≤ (N : ℚ) := by
      have l1 := Int.floor_le (a * (N : ℚ))
      have l2 := Int.floor_le (b * (N : ℚ))
      have l3 : (a + b) * (N : ℚ) ≤ 1 * (N : ℚ) :=
        mul_le_mul_of_nonneg_right hab (Nat.cast_nonneg N)
      push_cast
      nlinarith
    exact_mod_cast h1
  rw [floorNat_eq_intFloor, floorNat_eq_intFloor]
  omega

/-! ## Lengths and shapes of the Python slices -/

lemma pyHead_length (l : List α) {k : ℕ} (h : k ≤ l.length) :
    (pyHead l k).length = k := by
  simp [pyHead, h]

lemma pyTail_eq_drop (l : List α) {k : ℕ} (h : k ≠ 0) :
    pyTail l k = l.drop (l.length - k) := by
  simp [pyTail, h]

lemma pyTail_length (l : List α) {k : ℕ} (h1 : 1 ≤ k) (h2 : k ≤ l.length) :
    (pyTail l k).length = k := by
  rw [pyTail_eq_drop l (by omega)]
  rw [List.length_drop]
  omega

lemma pyHead_subset (l : List α) (k : ℕ) : pyHead l k ⊆ l :=
  List.take_subset k l

lemma pyTail_subset (l : List α) (k : ℕ) : pyTail l k ⊆ l := by
  unfold pyTail
  split
  · exact fun _ h => h
  · exact List.drop_subset _ l

/-- When `train_ratio + test_ratio ≤ 1`, both ratios are nonnegative and the
test window is nonempty (`floor(test_ratio * N) ≥ 1`), the two slices of a
duplicate-free order share no element. -/
lemma partitionIdx_disjoint {order : List ℕ} {a b : ℚ}
    (hnd : order.Nodup) (ha : 0 ≤ a) (hb : 0 ≤ b) (hab : a + b ≤ 1)
    (hte : 1 ≤ floorNat (b * order.length)) :
    ∀ i, i ∈ (partitionIdx order a b).1 → i ∉ (partitionIdx order a b).2 := by
  intro i h1 h2
  have hsum := floorNat_add_le order.length ha hb hab
  rw [show (partitionIdx order a b).2 = pyTail order (floorNat (b * order.length)) from rfl,
    pyTail_eq_drop order (by omega)] at h2
  exact List.disjoint_take_drop hnd (by omega) h1 h2

/-! ## The binary labels -/

lemma bglLabelAt_cases (rows : List BGLRow) (i : ℕ) :
    bglLabelAt rows i = 0 ∨ bglLabelAt rows i = 1 := by
  unfold bglLabelAt bglLabel
  split <;> simp

/-! ## Unfolding `load_BGL` on a successful run -/

lemma load_BGL_some_spec {rows : List BGLRow} {cfg : BGLConfig} {order : List ℕ}
    {coins : ℕ → ℚ} {tr te : List ℕ}
    (h : load_BGL rows cfg order coins = some (tr, te)) :
    cfg.trainRatio + cfg.testRatio ≤ 1 ∧
    tr = (partitionIdx order cfg.trainRatio cfg.testRatio).1.filter
        (bglTrainKeep rows cfg.anomalyRatio coins) ∧
    te = (if cfg.filterNormal then
        (partitionIdx order cfg.trainRatio cfg.testRatio).2.filter
          (bglTestKeep rows (tr.map (bglTemplateAt rows)))
      else (partitionIdx order cfg.trainRatio cfg.testRatio).2) := by
  by_cases h1 : cfg.trainRatio + cfg.testRatio ≤ 1
  · refine ⟨h1, ?_⟩
    simp only [load_BGL, if_pos h1] at h
    by_cases hfn : cfg.filterNormal = true
    · simp only [hfn, if_true] at h ⊢
      split at h
      · exact absurd h (by simp)
      · rw [Option.some.injEq, Prod.mk.injEq] at h
        obtain ⟨htr, hte⟩ := h
        subst htr
        exact ⟨rfl, hte.symm⟩
    · rw [Bool.not_eq_true] at hfn
      simp only [hfn, Bool.false_eq_true, if_false] at h ⊢
      split at h
      · exact absurd h (by simp)
      · rw [Option.some.injEq, Prod.mk.injEq] at h
        obtain ⟨htr, hte⟩ := h
        subst htr
        exact ⟨rfl, hte.symm⟩
  · simp [load_BGL, h1] at h

/-! ## The session builder -/

lemma sessionTemplates_appendTo [DecidableEq K] (s : List (K × List String))
    (k A : K) (t : String) :
    sessionTemplates (appendTo s k t) A =
      if A = k then sessionTemplates s A ++ [t] else sessionTemplates s A := by
  induction s with
  | nil =>
    by_cases h : A = k
    · subst h; simp [appendTo, sessionTemplates]
    · simp [appendTo, sessionTemplates, h, Ne.symm h]
  | cons hd tl ih =>
    obtain ⟨k', ts⟩ := hd
    by_cases h1 : k' = k
    · subst h1
      by_cases h2 : A = k'
      · subst h2; simp [appendTo, sessionTemplates]
      · simp [appendTo, sessionTemplates, h2, Ne.symm h2]
    · by_cases h2 : k' = A
      · subst h2
        simp [appendTo, sessionTemplates, h1, Ne.symm h1]
      · simp [appendTo, sessionTemplates, h1, h2, ih]

lemma sessionTemplates_foldl [DecidableEq K] (t : String) (ids : List K) :
    ids.Nodup → ∀ (acc : List (K × List String)) (A : K),
      sessionTemplates (ids.foldl (fun a k => appendTo a k t) acc) A =
        sessionTemplates acc A ++ (if A ∈ ids then [t] else []) := by
  induction ids with
  | nil => intro _ acc A; simp
  | cons k ids ih =>
    intro h acc A
    obtain ⟨hk, hnd⟩ := List.nodup_cons.mp h
    rw [List.foldl_cons, ih hnd, sessionTemplates_appendTo]
    by_cases hA : A = k
    · subst hA; simp [hk]
    · simp [hA, List.mem_cons]

lemma buildHDFS_go (A : String) (rows : List HDFSRow) :
    ∀ acc : List (String × List String),
      sessionTemplates
        (rows.foldl
          (fun acc row =>
            row.contentIds.dedup.foldl (fun a k => appendTo a k row.eventTemplate) acc)
          acc) A =
      sessionTemplates acc A ++
        ((rows.filter (fun r => decide (A ∈ r.contentIds))).map HDFSRow.eventTemplate) := by
  induction rows with
  | nil => intro acc; simp
  | cons r rows ih =>
    intro acc
    rw [List.foldl_cons, ih,
      sessionTemplates_foldl r.eventTemplate r.contentIds.dedup (List.nodup_dedup _)]
    by_cases h : A ∈ r.contentIds
    · simp [List.filter_cons, h, List.mem_dedup]
    · simp [List.filter_cons, h, List.mem_dedup]

/-- Per-session content of the HDFS builder: session `A` holds exactly one
occurrence of the template of every record whose id list mentions `A`
(duplicate mentions inside one record collapse), in record order. -/
lemma buildHDFS_spec (rows : List HDFSRow) (A : String) :
    sessionTemplates (buildHDFS rows) A =
      (rows.filter (fun r => decide (A ∈ r.contentIds))).map HDFSRow.eventTemplate := by
  have h := buildHDFS_go A rows []
  simpa [buildHDFS, sessionTemplates] using h

lemma buildOpenStack_go (k : String × ℕ) (rows : List OSRow) :
    ∀ acc : List ((String × ℕ) × List String),
      sessionTemplates
        (rows.foldl
          (fun acc r => appendTo acc (bucketKey r) (openStackStoredTemplate r.eventTemplate))
          acc) k =
      sessionTemplates acc k ++
        ((rows.filter (fun r => decide (bucketKey r = k))).map
          (fun r => openStackStoredTemplate r.eventTemplate)) := by
  induction rows with
  | nil => intro acc; simp
  | cons r rows ih =>
    intro acc
    rw [List.foldl_cons, ih, sessionTemplates_appendTo]
    by_cases h : bucketKey r = k
    · rw [if_pos h.symm]
      simp [List.filter_cons, h]
    · rw [if_neg (fun e => h (Eq.symm e))]
      simp [List.filter_cons, h]

/-- Per-session content of the OpenStack builder: the bucket-key session
holds the transformed templates of exactly its records, in arrival order. -/
lemma buildOpenStack_spec (rows : List OSRow) (k : String × ℕ) :
    sessionTemplates (buildOpenStack rows) k =
      (rows.filter (fun r => decide (bucketKey r = k))).map
        (fun r => openStackStoredTemplate r.eventTemplate) := by
  have h := buildOpenStack_go k rows []
  simpa [buildOpenStack, sessionTemplates] using h

/-! ## Uniqueness of session keys -/

lemma appendTo_keys [DecidableEq K] (s : List (K × List String)) (k : K) (t : String) :
    (appendTo s k t).map Prod.fst =
      if k ∈ s.map Prod.fst then s.map Prod.fst else s.map Prod.fst ++ [k] := by
  induction s with
  | nil => simp [appendTo]
  | cons hd tl ih =>
    obtain ⟨k', ts⟩ := hd
    by_cases h : k' = k
    · subst h; simp [appendTo]
    · by_cases hmem : k ∈ tl.map Prod.fst
      · simp [appendTo, h, ih, hmem, Ne.symm h]
      · simp [appendTo, h, ih, hmem, Ne.symm h]

lemma appendTo_keys_nodup [DecidableEq K] {s : List (K × List String)}
    (h : (s.map Prod.fst).Nodup) (k : K) (t : String) :
    ((appendTo s k t).map Prod.fst).Nodup := by
  rw [appendTo_keys]
  by_cases hmem : k ∈ s.map Prod.fst
  · simpa [hmem] using h
  · simp [hmem, List.nodup_append, h]

lemma foldl_appendTo_keys_nodup [DecidableEq K] (ids : List K) (t : String) :
    ∀ {acc : List (K × List String)}, (acc.map Prod.fst).Nodup →
      (((ids.foldl (fun a k => appendTo a k t) acc)).map Prod.fst).Nodup := by
  induction ids with
  | nil => intro acc h; simpa using h
  | cons k ids ih => intro acc h; exact ih (appendTo_keys_nodup h k t)

/-- The HDFS session dictionary has pairwise distinct keys. -/
lemma buildHDFS_keys_nodup (rows : List HDFSRow) :
    ((buildHDFS rows).map Prod.fst).Nodup := by
  suffices h : ∀ (rs : List HDFSRow) (acc : List (String × List String)),
      (acc.map Prod.fst).Nodup →
      (((rs.foldl
          (fun acc row =>
            row.contentIds.dedup.foldl (fun a k => appendTo a k row.eventTemplate) acc)
          acc)).map Prod.fst).Nodup by
    exact h rows [] (by simp)
  intro rs
  induction rs with
  | nil => intro acc h; simpa using h
  | cons r rs ih =>
    intro acc h
    exact ih _ (foldl_appendTo_keys_nodup r.contentIds.dedup r.eventTemplate h)

lemma nodup_getD_inj {l : List String} (h : l.Nodup) {i j : ℕ}
    (hi : i < l.length) (hj : j < l.length)
    (he : l.getD i "" = l.getD j "") : i = j := by
  rw [List.getD_eq_getElem l "" hi, List.getD_eq_getElem l "" hj] at he
  exact List.Nodup.getElem_inj_iff h |>.mp he

/-! ## Unfolding `load_HDFS` on a successful run -/

lemma load_HDFS_some_spec {rows : List HDFSRow} {labelTable : List (String × ℕ)}
    {trainRatio testRatio anomalyRatio : ℚ} {order : List ℕ} {coins : String → ℚ}
    {tr te : List String}
    (h : load_HDFS rows labelTable trainRatio testRatio anomalyRatio order coins
        = some (tr, te)) :
    tr = ((partitionIdx order trainRatio testRatio).1.map
        (fun i => ((buildHDFS rows).map Prod.fst).getD i "")).filter
        (fun k => decide (((labelTable.lookup k).getD 0) = 0) ||
          (decide (((labelTable.lookup k).getD 0) = 1) &&
            decision anomalyRatio (coins k))) ∧
    te = (partitionIdx order trainRatio testRatio).2.map
        (fun i => ((buildHDFS rows).map Prod.fst).getD i "") := by
  by_cases h1 : ((buildHDFS rows).map Prod.fst).all
      (fun k => (labelTable.lookup k).isSome)
  · simp only [load_HDFS, if_pos h1] at h
    split at h
    · exact absurd h (by simp)
    · rw [Option.some.injEq, Prod.mk.injEq] at h
      exact ⟨h.1.symm, h.2.symm⟩
  · simp [load_HDFS, h1] at h

/-! ## Claims -/

/-- Claim C1, as stated, fails on the `a[-test_lines:]` slice: with `N = 2`
rows, `train_ratio = 1/2` and `test_ratio = 1/4` we get
`test_lines = floor(1/4 * 2) = 0`, and the Python slice `a[-0:]` is the whole
order, so the test partition has 2 elements, not `floor(test_ratio * N) = 0`. -/
theorem C1_counterexample :
    partitionIdx (List.range 2) (1/2) (1/4) = ([0], [0, 1]) ∧
    floorNat ((1/4 : ℚ) * (2 : ℕ)) = 0 ∧
    (partitionIdx (List.range 2) (1/2) (1/4)).2.length ≠ floorNat ((1/4 : ℚ) * (2 : ℕ)) := by
  refine ⟨by decide, by decide, by decide⟩

/-- Claim C1 (amended): for a corpus of `N` rows or session ids in the fixed
unshuffled order, with `0 ≤ train_ratio ≤ 1`, `0 ≤ test_ratio ≤ 1` and
`floor(test_ratio * N) ≥ 1`, the partitioner selects as training candidates
exactly the first `floor(train_ratio * N)` elements of the order and as test
partition exactly the last `floor(test_ratio * N)` elements, with those exact
lengths.  (When `floor(test_ratio * N) = 0` and `N > 0` the `a[-0:]` slice
instead selects the whole order as the test partition.) -/
theorem C1_partition_sizes (N : ℕ) (a b : ℚ)
    (ha0 : 0 ≤ a) (ha1 : a ≤ 1) (hb0 : 0 ≤ b) (hb1 : b ≤ 1)
    (hte : 1 ≤ floorNat (b * N)) :
    (partitionIdx (List.range N) a b).1 = (List.range N).take (floorNat (a * N)) ∧
    (partitionIdx (List.range N) a b).2 = (List.range N).drop (N - floorNat (b * N)) ∧
    (partitionIdx (List.range N) a b).1.length = floorNat (a * N) ∧
    (partitionIdx (List.range N) a b).2.length = floorNat (b * N) := by
  have hsplit : partitionIdx (List.range N) a b =
      (pyHead (List.range N) (floorNat (a * N)),
       pyTail (List.range N) (floorNat (b * N))) := by
    simp [partitionIdx, List.length_range]
  have hta : floorNat (a * N) ≤ N := floorNat_le N ha1
  have htb : floorNat (b * N) ≤ N := floorNat_le N hb1
  refine ⟨?_, ?_, ?_, ?_⟩
  · rw [hsplit]; rfl
  · rw [hsplit, show (pyHead (List.range N) (floorNat (a * N)),
        pyTail (List.range N) (floorNat (b * N))).2
        = pyTail (List.range N) (floorNat (b * N)) from rfl,
      pyTail_eq_drop _ (by omega), List.length_range]
  · rw [hsplit]
    exact pyHead_length _ (by simpa [List.length_range] using hta)
  · rw [hsplit]
    exact pyTail_length _ hte (by simpa [List.length_range] using htb)

/-- Witness for C1 at `N = 4`, `train_ratio = 1/2`, `test_ratio = 1/4`. -/
theorem C1_witness :
    ((0 : ℚ) ≤ 1/2 ∧ (1/2 : ℚ) ≤ 1 ∧ (0 : ℚ) ≤ 1/4 ∧ (1/4 : ℚ) ≤ 1 ∧
      1 ≤ floorNat ((1/4 : ℚ) * (4 : ℕ))) ∧
    ((partitionIdx (List.range 4) (1/2) (1/4)).1
        = (List.range 4).take (floorNat ((1/2 : ℚ) * (4 : ℕ))) ∧
      (partitionIdx (List.range 4) (1/2) (1/4)).2
        = (List.range 4).drop (4 - floorNat ((1/4 : ℚ) * (4 : ℕ))) ∧
      (partitionIdx (List.range 4) (1/2) (1/4)).1.length = floorNat ((1/2 : ℚ) * (4 : ℕ)) ∧
      (partitionIdx (List.range 4) (1/2) (1/4)).2.length = floorNat ((1/4 : ℚ) * (4 : ℕ))) :=
  ⟨⟨by decide, by decide, by decide, by decide, by decide⟩,
    C1_partition_sizes 4 (1/2) (1/4) (by decide) (by decide) (by decide) (by decide)
      (by decide)⟩

/-- Claim C2, as stated, fails through the same `a[-0:]` slice: on a 1-row
BGL log with `train_ratio = 1`, `test_ratio = 0` (so the ratios sum to 1) the
loader succeeds and returns row index 0 in both partitions. -/
theorem C2_counterexample :
    load_BGL [⟨"T", "-"⟩] ⟨1, 0, 0, true⟩ (List.range 1) (fun _ => 0)
      = some ([0], [0]) ∧
    ((1 : ℚ) + 0 ≤ 1) ∧
    ¬ (∀ i : ℕ, i ∈ ([0] : List ℕ) → i ∉ ([0] : List ℕ)) :=
  ⟨by decide, by decide, fun h => h 0 (by decide) (by decide)⟩

/-- Claim C2 (amended): the produced train and test partitions are disjoint
whenever `train_ratio + test_ratio ≤ 1`, both ratios are nonnegative, the
order is duplicate-free, and additionally `floor(test_ratio * N) ≥ 1` — when
that floor is 0 (and the corpus is nonempty) the `a[-0:]` slice makes the
test partition the whole order, which can meet the train partition.  First
conjunct: `load_BGL` (row-index mode); second: `load_HDFS` (session-id
mode, where the order indexes the built session-id list). -/
theorem C2_partitions_disjoint :
    (∀ (rows : List BGLRow) (cfg : BGLConfig) (order : List ℕ) (coins : ℕ → ℚ)
      (tr te : List ℕ),
      order.Nodup → 0 ≤ cfg.trainRatio → 0 ≤ cfg.testRatio →
      1 ≤ floorNat (cfg.testRatio * order.length) →
      load_BGL rows cfg order coins = some (tr, te) →
      ∀ i, i ∈ tr → i ∉ te) ∧
    (∀ (rows : List HDFSRow) (labelTable : List (String × ℕ)) (a b p : ℚ)
      (order : List ℕ) (coins : String → ℚ) (tr te : List String),
      order.Nodup → (∀ i ∈ order, i < (buildHDFS rows).length) →
      0 ≤ a → 0 ≤ b → a + b ≤ 1 →
      1 ≤ floorNat (b * order.length) →
      load_HDFS rows labelTable a b p order coins = some (tr, te) →
      ∀ k, k ∈ tr → k ∉ te) := by
  constructor
  · intro rows cfg order coins tr te hnd ha hb hte1 hload
    obtain ⟨hab, htr, hte⟩ := load_BGL_some_spec hload
    intro i hitr hite
    refine partitionIdx_disjoint hnd ha hb hab hte1 i ?_ ?_
    · rw [htr] at hitr
      exact List.mem_of_mem_filter hitr
    · rw [hte] at hite
      by_cases hfn : cfg.filterNormal = true
      · rw [if_pos hfn] at hite
        exact List.mem_of_mem_filter hite
      · rw [if_neg hfn] at hite
        exact hite
  · intro rows labelTable a b p order coins tr te hnd hbound ha hb hab hte1 hload
    obtain ⟨htr, hte⟩ := load_HDFS_some_spec hload
    intro k hktr hkte
    rw [htr] at hktr
    rw [hte] at hkte
    obtain ⟨i, hi, hfi⟩ := List.mem_map.mp (List.mem_of_mem_filter hktr)
    obtain ⟨j, hj, hfj⟩ := List.mem_map.mp hkte
    have hilen : i < ((buildHDFS rows).map Prod.fst).length := by
      rw [List.length_map]
      exact hbound i (pyHead_subset order _ hi)
    have hjlen : j < ((buildHDFS rows).map Prod.fst).length := by
      rw [List.length_map]
      exact hbound j (pyTail_subset order _ hj)
    have hij : i = j :=
      nodup_getD_inj (buildHDFS_keys_nodup rows) hilen hjlen (hfi.trans hfj.symm)
    subst hij
    exact partitionIdx_disjoint hnd ha hb hab hte1 i hi hj

/-- Witness for C2: a 2-row BGL corpus split 1/2 + 1/2, and a 2-session HDFS
corpus split 1/2 + 1/2. -/
theorem C2_witness :
    ((List.range 2).Nodup ∧ (0 : ℚ) ≤ 1/2 ∧
      1 ≤ floorNat ((1/2 : ℚ) * (List.range 2).length) ∧
      load_BGL [⟨"T", "-"⟩, ⟨"T", "-"⟩] ⟨1/2, 1/2, 0, true⟩ (List.range 2)
        (fun _ => 0) = some ([0], [1]) ∧
      (∀ i, i ∈ ([0] : List ℕ) → i ∉ ([1] : List ℕ))) ∧
    ((∀ i ∈ List.range 2,
        i < (buildHDFS [⟨["blk_1"], "T1"⟩, ⟨["blk_2"], "T2"⟩]).length) ∧
      (1/2 : ℚ) + 1/2 ≤ 1 ∧
      load_HDFS [⟨["blk_1"], "T1"⟩, ⟨["blk_2"], "T2"⟩] [("blk_1", 0), ("blk_2", 0)]
        (1/2) (1/2) 1 (List.range 2) (fun _ => 0)
        = some (["blk_1"], ["blk_2"]) ∧
      (∀ k, k ∈ (["blk_1"] : List String) → k ∉ (["blk_2"] : List String))) :=
  ⟨⟨by decide, by decide, by decide, by decide,
      C2_partitions_disjoint.1 [⟨"T", "-"⟩, ⟨"T", "-"⟩] ⟨1/2, 1/2, 0, true⟩
        (List.range 2) (fun _ => 0) [0] [1] (by decide) (by decide) (by decide)
        (by decide) (by decide)⟩,
    ⟨by decide, by decide, by decide,
      C2_partitions_disjoint.2 [⟨["blk_1"], "T1"⟩, ⟨["blk_2"], "T2"⟩]
        [("blk_1", 0), ("blk_2", 0)] (1/2) (1/2) 1 (List.range 2) (fun _ => 0)
        ["blk_1"] ["blk_2"] (by decide) (by decide) (by decide) (by decide)
        (by decide) (by decide) (by decide)⟩⟩

/-- Claim C4: anomaly downsampling is a per-item filter on the selected
training window: an item is retained iff its label is 0, or its label is 1
and the biased coin (uniform draw below `train_anomaly_ratio`) succeeds;
hence ratio 0 retains no anomalous item, ratio 1 retains the whole window,
and label-0 items are always retained.  (`decision` is modelled from the
spec, `utils.py` not being among the sources.) -/
theorem C4_anomaly_downsampling (rows : List BGLRow) (cfg : BGLConfig)
    (order : List ℕ) (coins : ℕ → ℚ) (tr te : List ℕ)
    (hc0 : ∀ i, 0 ≤ coins i) (hc1 : ∀ i, coins i < 1)
    (hload : load_BGL rows cfg order coins = some (tr, te)) :
    (∀ i, i ∈ tr ↔ i ∈ (partitionIdx order cfg.trainRatio cfg.testRatio).1 ∧
        (bglLabelAt rows i = 0 ∨
          (bglLabelAt rows i = 1 ∧ decision cfg.anomalyRatio (coins i) = true))) ∧
    (cfg.anomalyRatio = 0 → ∀ i ∈ tr, bglLabelAt rows i = 0) ∧
    (cfg.anomalyRatio = 1 →
      tr = (partitionIdx order cfg.trainRatio cfg.testRatio).1) ∧
    (∀ i ∈ (partitionIdx order cfg.trainRatio cfg.testRatio).1,
      bglLabelAt rows i = 0 → i ∈ tr) := by
  obtain ⟨hab, htr, hte⟩ := load_BGL_some_spec hload
  subst htr
  refine ⟨?_, ?_, ?_, ?_⟩
  · intro i
    simp [List.mem_filter, bglTrainKeep, decision]
  · intro h0 i hi
    have hkeep := (List.mem_filter.mp hi).2
    rw [h0] at hkeep
    simp [bglTrainKeep, decision] at hkeep
    rcases hkeep with h | ⟨_, hlt⟩
    · exact h
    · exact absurd hlt (not_lt.mpr (hc0 i))
  · intro h1
    rw [h1]
    apply List.filter_eq_self.mpr
    intro i hi
    rcases bglLabelAt_cases rows i with h | h <;>
      simp [bglTrainKeep, decision, h, hc1 i]
  · intro i hi h0
    exact List.mem_filter.mpr ⟨hi, by simp [bglTrainKeep, h0]⟩

/-- Witness for C4 on a 2-row all-normal BGL corpus with ratio 0 and
all-zero uniform draws. -/
theorem C4_witness :
    ((∀ i : ℕ, (0 : ℚ) ≤ (fun _ : ℕ => (0 : ℚ)) i) ∧
      (∀ i : ℕ, (fun _ : ℕ => (0 : ℚ)) i < 1) ∧
      load_BGL [⟨"T", "-"⟩, ⟨"T", "-"⟩] ⟨1/2, 1/2, 0, true⟩ (List.range 2)
        (fun _ => 0) = some ([0], [1])) ∧
    ((∀ i, i ∈ ([0] : List ℕ) ↔
        i ∈ (partitionIdx (List.range 2) (1/2) (1/2)).1 ∧
        (bglLabelAt [⟨"T", "-"⟩, ⟨"T", "-"⟩] i = 0 ∨
          (bglLabelAt [⟨"T", "-"⟩, ⟨"T", "-"⟩] i = 1 ∧
            decision 0 0 = true))) ∧
      ((0 : ℚ) = 0 → ∀ i ∈ ([0] : List ℕ),
        bglLabelAt [⟨"T", "-"⟩, ⟨"T", "-"⟩] i = 0) ∧
      ((0 : ℚ) = 1 → ([0] : List ℕ) = (partitionIdx (List.range 2) (1/2) (1/2)).1) ∧
      (∀ i ∈ (partitionIdx (List.range 2) (1/2) (1/2)).1,
        bglLabelAt [⟨"T", "-"⟩, ⟨"T", "-"⟩] i = 0 → i ∈ ([0] : List ℕ))) :=
  ⟨⟨fun _ => le_refl 0, fun _ => show (0 : ℚ) < 1 by decide, by decide⟩,
    C4_anomaly_downsampling [⟨"T", "-"⟩, ⟨"T", "-"⟩] ⟨1/2, 1/2, 0, true⟩
      (List.range 2) (fun _ => 0) [0] [1] (fun _ => le_refl 0)
      (fun _ => show (0 : ℚ) < 1 by decide) (by decide)⟩

/-- Claim C5: with `filter_normal` on, a test row survives iff it lies in the
test window and its label is 1 or its template occurs among the templates of
the final (post-downsampling) training subset; so label-0 rows with unseen
templates are dropped, label-1 rows are never dropped, and label-0 rows with
seen templates are kept. -/
theorem C5_unseen_template_filter (rows : List BGLRow) (cfg : BGLConfig)
    (order : List ℕ) (coins : ℕ → ℚ) (tr te : List ℕ)
    (hfn : cfg.filterNormal = true)
    (hload : load_BGL rows cfg order coins = some (tr, te)) :
    ∀ i, i ∈ te ↔
      (i ∈ (partitionIdx order cfg.trainRatio cfg.testRatio).2 ∧
        (bglLabelAt rows i = 1 ∨
          bglTemplateAt rows i ∈ tr.map (bglTemplateAt rows))) := by
  obtain ⟨hab, htr, hte⟩ := load_BGL_some_spec hload
  rw [if_pos hfn] at hte
  subst hte
  intro i
  rw [List.mem_filter]
  rcases bglLabelAt_cases rows i with h | h <;> simp [bglTestKeep, h]

/-- Witness for C5: 3 BGL rows, train window `[0]` (template "A"), test
window `[1, 2]`; the label-0 row with unseen template "B" is dropped and the
label-1 row with unseen template "C" survives. -/
theorem C5_witness :
    (((⟨1/3, 2/3, 0, true⟩ : BGLConfig).filterNormal = true) ∧
      load_BGL [⟨"A", "-"⟩, ⟨"B", "-"⟩, ⟨"C", "x"⟩] ⟨1/3, 2/3, 0, true⟩
        (List.range 3) (fun _ => 0) = some ([0], [2])) ∧
    (∀ i, i ∈ ([2] : List ℕ) ↔
      (i ∈ (partitionIdx (List.range 3) (1/3) (2/3)).2 ∧
        (bglLabelAt [⟨"A", "-"⟩, ⟨"B", "-"⟩, ⟨"C", "x"⟩] i = 1 ∨
          bglTemplateAt [⟨"A", "-"⟩, ⟨"B", "-"⟩, ⟨"C", "x"⟩] i ∈
            List.map (bglTemplateAt [⟨"A", "-"⟩, ⟨"B", "-"⟩, ⟨"C", "x"⟩]) [0]))) :=
  ⟨⟨by decide, by decide⟩,
    C5_unseen_template_filter [⟨"A", "-"⟩, ⟨"B", "-"⟩, ⟨"C", "x"⟩]
      ⟨1/3, 2/3, 0, true⟩ (List.range 3) (fun _ => 0) [0] [2] (by decide)
      (by decide)⟩

/-- Claim C8, as stated, fails for the HDFS loader: with
`train_ratio = test_ratio = 4/5` (sum 8/5 > 1) `load_HDFS` runs to completion
and returns a train/test pair — it has no ratio assertion. -/
theorem C8_counterexample :
    ¬ ((4 : ℚ)/5 + 4/5 ≤ 1) ∧
    load_HDFS [⟨["blk_1"], "T1"⟩, ⟨["blk_2"], "T2"⟩] [("blk_1", 0), ("blk_2", 0)]
      (4/5) (4/5) 1 (List.range 2) (fun _ => 0)
      = some (["blk_1"], ["blk_2"]) :=
  ⟨by decide, by decide⟩

/-- Claim C8 (amended): only the BGL loader rejects
`train_ratio + test_ratio > 1` (its `assert`, placed before any slicing), and
then produces no train/test output; the HDFS and OpenStack loaders have no
such check. -/
theorem C8_bgl_ratio_guard (rows : List BGLRow) (cfg : BGLConfig)
    (order : List ℕ) (coins : ℕ → ℚ)
    (h : 1 < cfg.trainRatio + cfg.testRatio) :
    load_BGL rows cfg order coins = none := by
  simp [load_BGL, not_le.mpr h]

/-- Witness for C8's amended guard at `train_ratio = 1`, `test_ratio = 1/2`. -/
theorem C8_witness :
    (1 : ℚ) < 1 + 1/2 ∧
    load_BGL [⟨"T", "-"⟩] ⟨1, 1/2, 0, true⟩ (List.range 1) (fun _ => 0) = none :=
  ⟨by decide, C8_bgl_ratio_guard [⟨"T", "-"⟩] ⟨1, 1/2, 0, true⟩ (List.range 1)
    (fun _ => 0) (by decide)⟩

/-- Claim C9: the code does not detect empty partitions; on a 1-row BGL log
with `train_ratio = 0`, `test_ratio = 1` the training partition is empty and
the unconditional `100 * sum(labels_train) / len(labels_train)` statistics
raise `ZeroDivisionError` (modelled as `none`), instead of the check-and-
report the claim describes. -/
theorem C9_empty_partition_fault :
    load_BGL [⟨"T", "-"⟩] ⟨0, 1, 0, true⟩ (List.range 1) (fun _ => 0) = none := by
  decide

/-- Claim C3: session `A` of the multi-id loader holds, in record order,
exactly one template occurrence per record whose Content mentions `A` — the
per-record `set()` collapses duplicate mentions to a single append, and a
record mentioning ids `{A, B}` contributes one occurrence to each. -/
theorem C3_multi_id_fanout (rows : List HDFSRow) (A : String) :
    sessionTemplates (buildHDFS rows) A =
      (rows.filter (fun r => decide (A ∈ r.contentIds))).map HDFSRow.eventTemplate :=
  buildHDFS_spec rows A

/-- Claim C6: the time-bucket key keeps the record's date/hour/minute part
and replaces the seconds by 0 when `second ≤ 30` (including the boundary
`second = 30`) and by 30 otherwise; all records with the same bucket key form
one session, in arrival order. -/
theorem C6_time_bucket (rows : List OSRow) (k : String × ℕ) (r : OSRow) :
    bucketKey r = (r.minutePart, if r.second ≤ 30 then 0 else 30) ∧
    sessionTemplates (buildOpenStack rows) k =
      (rows.filter (fun x => decide (bucketKey x = k))).map
        (fun x => openStackStoredTemplate x.eventTemplate) := by
  refine ⟨?_, buildOpenStack_spec rows k⟩
  unfold bucketKey
  split <;> rfl

/-- Claim C7, as stated, fails for `load_sessions`: the resolved 0/1 labels
are computed only for the logged statistics, and the returned collections
keep their raw labels — a session pickled with the collection label `[1]` is
returned with that collection as its label, which is neither the integer 0
nor 1. -/
theorem C7_counterexample :
    load_sessions [("s", ⟨["T"], RawLabel.collection [1]⟩)]
        [("t", ⟨["T"], RawLabel.scalar 0⟩)]
      = some ([("s", ⟨["T"], RawLabel.collection [1]⟩)],
          [("t", ⟨["T"], RawLabel.scalar 0⟩)]) ∧
    RawLabel.collection [1] ≠ RawLabel.scalar 0 ∧
    RawLabel.collection [1] ≠ RawLabel.scalar 1 :=
  ⟨by decide, by decide, by decide⟩

/-- Claim C7 (amended): the label-resolution expression maps a collection
label to 1 iff the sum of its sub-labels is strictly positive (and always to
0 or 1), and the labels the ratio loaders construct are 0 or 1; but
`load_sessions` applies the resolution only for its logged statistics and
returns the loaded collections unchanged (raw labels untouched), failing only
on an empty collection. -/
theorem C7_label_resolution :
    (∀ l : List ℤ, (resolveLabel (RawLabel.collection l) = 1 ↔ 0 < l.sum) ∧
      (resolveLabel (RawLabel.collection l) = 0 ∨
        resolveLabel (RawLabel.collection l) = 1)) ∧
    (∀ (rows : List BGLRow) (i : ℕ),
      bglLabelAt rows i = 0 ∨ bglLabelAt rows i = 1) ∧
    (∀ s : String, hdfsLabel s = 0 ∨ hdfsLabel s = 1) ∧
    (∀ sessionTrain sessionTest : List (String × PackedSession),
      load_sessions sessionTrain sessionTest = none ∨
      load_sessions sessionTrain sessionTest = some (sessionTrain, sessionTest)) := by
  refine ⟨?_, bglLabelAt_cases, ?_, ?_⟩
  · intro l
    constructor
    · by_cases h : 0 < l.sum <;> simp [resolveLabel, h]
    · by_cases h : 0 < l.sum <;> simp [resolveLabel, h]
  · intro s
    unfold hdfsLabel
    split <;> simp
  · intro a b
    by_cases h : (a.length = 0 ∨ b.length = 0)
    · left
      simp only [load_sessions]
      rw [if_pos h]
    · right
      simp only [load_sessions]
      rw [if_neg h]

/-- Claim C10, as stated, fails for the OpenStack loader: it stores
`EventTemplate.replace('[', '')`, so the record with template `"a[b"` is
stored as `"ab"`, not character-for-character equal to its column value. -/
theorem C10_counterexample :
    buildOpenStack [⟨"2017-05-16 00:00", 5, "a[b"⟩]
      = [(("2017-05-16 00:00", 0), ["ab"])] ∧
    ("ab" : String) ≠ "a[b" :=
  ⟨by decide, by decide⟩

/-- Claim C10 (amended): the HDFS loader stores `EventTemplate` verbatim
(each session's templates are exactly the column values of its records),
while the OpenStack loader stores the column value with every `'['` removed —
so its stored template equals the column value iff the value contains no
`'['`. -/
theorem C10_template_transform :
    (∀ (rows : List HDFSRow) (A : String),
      sessionTemplates (buildHDFS rows) A =
        (rows.filter (fun r => decide (A ∈ r.contentIds))).map HDFSRow.eventTemplate) ∧
    (∀ s : String, openStackStoredTemplate s = s ↔ ∀ c ∈ s.data, c ≠ '[') := by
  refine ⟨buildHDFS_spec, ?_⟩
  intro s
  constructor
  · intro h c hc
    have hdata : s.data.filter (fun c => c ≠ '[') = s.data := congrArg String.data h
    simpa using List.filter_eq_self.mp hdata c hc
  · intro h
    unfold openStackStoredTemplate
    rw [List.filter_eq_self.mpr (fun c hc => by simpa using h c hc)]

end DeepLoglizer
